import Mathlib

/-!
Verification development for the KupaAsc posts-sharing application.

The backend model embeds `src/backend/src/posts/post.repository.ts` and
`src/backend/src/posts/posts.service.ts`: a relational store of users and
posts, author attachment with a restricted field selection, ordering by
`createdAt` descending, and the service-level NotFound/Forbidden checks.

The frontend model embeds `src/frontend/src/contexts/PostsContext.tsx`:
the reducer over the client session state, the localStorage session
restore effect, the auth-transition refresh effect, and the event
sequencing of fetch/logout.
-/

namespace KupaAsc

namespace Backend

/-- A persisted user row (database/entities/user.entity.ts shape, as used by
the posts repository: id, email, passwordHash, firstName, lastName and the
two timestamps). -/
structure User where
  id : Nat
  email : String
  passwordHash : String
  firstName : String
  lastName : String
  createdAt : Int
  updatedAt : Int
deriving DecidableEq, Repr

/-- The author fields exposed by `PostRepository.postSelect`
(post.repository.ts lines 10-20): id, email, firstName, lastName,
createdAt, updatedAt. The selection has no passwordHash entry, so the
view type has no passwordHash field. -/
structure AuthorView where
  id : Nat
  email : String
  firstName : String
  lastName : String
  createdAt : Int
  updatedAt : Int
deriving DecidableEq, Repr

/-- Projection applied by `postSelect` to the joined author row. -/
def selectAuthor (u : User) : AuthorView :=
  { id := u.id, email := u.email, firstName := u.firstName,
    lastName := u.lastName, createdAt := u.createdAt, updatedAt := u.updatedAt }

/-- A persisted post row (database/entities/post.entity.ts shape). -/
structure PostRow where
  id : Nat
  title : String
  content : String
  published : Bool
  authorId : Nat
  createdAt : Int
  updatedAt : Int
deriving DecidableEq, Repr

/-- A post as returned by the repository: the row together with the
attached author restricted by `postSelect` (relations: ['author']). -/
structure PostView where
  post : PostRow
  author : Option AuthorView
deriving DecidableEq, Repr

/-- The relational store reached through TypeORM: user rows, post rows,
and the next auto-generated post id. -/
structure DB where
  users : List User
  posts : List PostRow
  nextPostId : Nat
deriving Repr

/-- Body of a create request. `title`, `content` and the optional
`published` mirror CreatePostDto; the extra optional `authorId` field
models a client that smuggles an authorId into the input object, which
the JS spread `\x7b...createPostDto, authorId\x7d` in
`PostRepository.create` overrides unconditionally. -/
structure CreatePostDto where
  title : String
  content : String
  published : Option Bool
  authorId : Option Nat
deriving DecidableEq, Repr

/-- Body of a partial update request (UpdatePostDto): every field
optional; an absent field is simply not present in the object sent to
`postRepository.update`. -/
structure UpdatePostDto where
  title : Option String
  content : Option String
  published : Option Bool
deriving DecidableEq, Repr

/-- Attach the author relation to a row, restricted by `postSelect`. -/
def attachAuthor (db : DB) (r : PostRow) : PostView :=
  { post := r
    author := (db.users.find? (fun u => u.id == r.authorId)).map selectAuthor }

/-- Insert a row into a list already sorted by `createdAt` descending,
keeping rows with an equal or larger `createdAt` first (a stable
descending insertion, the deterministic reading of TypeORM
order createdAt DESC). -/
def insertDescByCreatedAt (x : PostRow) : List PostRow → List PostRow
  | [] => [x]
  | y :: ys =>
    if y.createdAt < x.createdAt then x :: y :: ys
    else y :: insertDescByCreatedAt x ys

/-- Sort rows by `createdAt` descending (stable insertion sort). -/
def orderByCreatedAtDesc (l : List PostRow) : List PostRow :=
  l.foldr insertDescByCreatedAt []

namespace PostRepository

/-- Embeds `PostRepository.create` (post.repository.ts lines 27-33):
builds the entity from the spread of the dto with the explicit
`authorId` key last, so any authorId inside the dto is overridden, and
saves it.

Modelled from the spec: post.entity.ts is not under src/, so the column
default for `published` (spec: boolean, default true) and the shape of
the value returned by `save` (spec: returns the stored post including
attached author) are taken from the spec text. -/
def create (db : DB) (dto : CreatePostDto) (authorId : Nat) (now : Int) :
    DB × PostView :=
  let row : PostRow :=
    { id := db.nextPostId
      title := dto.title
      content := dto.content
      published := dto.published.getD true
      authorId := authorId
      createdAt := now
      updatedAt := now }
  let db2 : DB :=
    { db with posts := db.posts ++ [row], nextPostId := db.nextPostId + 1 }
  (db2, attachAuthor db2 row)

/-- Embeds `PostRepository.findAll` (lines 35-41): all rows, author
attached under `postSelect`, ordered by `createdAt` DESC. -/
def findAll (db : DB) : List PostView :=
  (orderByCreatedAtDesc db.posts).map (attachAuthor db)

/-- Embeds `PostRepository.findById` (lines 43-49): the row with the
given id, author attached, or null. -/
def findById (db : DB) (id : Nat) : Option PostView :=
  (db.posts.find? (fun r => r.id == id)).map (attachAuthor db)

/-- Embeds `PostRepository.findByAuthor` (lines 51-58): rows with an
exact `authorId` match, same ordering rule, author attached. -/
def findByAuthor (db : DB) (authorId : Nat) : List PostView :=
  (orderByCreatedAtDesc (db.posts.filter (fun r => r.authorId == authorId))).map
    (attachAuthor db)

/-- Field application of a partial update: a field present in the dto
replaces the column, an absent field leaves the column untouched
(TypeORM update only writes the keys present in the object). -/
def applyUpdateDto (dto : UpdatePostDto) (r : PostRow) : PostRow :=
  { r with
    title := dto.title.getD r.title
    content := dto.content.getD r.content
    published := dto.published.getD r.published }

/-- Embeds `PostRepository.update` (lines 60-63): apply the partial dto
to the row with the given id, then re-fetch it via findById. -/
def update (db : DB) (id : Nat) (dto : UpdatePostDto) :
    DB × Option PostView :=
  let db2 : DB :=
    { db with
      posts := db.posts.map (fun r => if r.id == id then applyUpdateDto dto r else r) }
  (db2, findById db2 id)

/-- Embeds `PostRepository.delete` (lines 65-68): remove the row with
the given id; the Bool is `affected > 0`, i.e. whether a row existed. -/
def delete (db : DB) (id : Nat) : DB × Bool :=
  ({ db with posts := db.posts.filter (fun r => !(r.id == id)) },
   db.posts.any (fun r => r.id == id))

end PostRepository

/-- The failure classes surfaced by the service layer
(NotFoundException / ForbiddenException). -/
inductive ServiceError where
  | NotFound
  | Forbidden
deriving DecidableEq, Repr

namespace PostsService

/-- Embeds `PostsService.create`: pass-through to the repository with
the authenticated caller id (the controller passes `user.id`). -/
def create (db : DB) (dto : CreatePostDto) (authorId : Nat) (now : Int) :
    DB × PostView :=
  PostRepository.create db dto authorId now

/-- Embeds `PostsService.findAll`. -/
def findAll (db : DB) : List PostView :=
  PostRepository.findAll db

/-- Embeds `PostsService.findOne`: NotFound when the row is absent. -/
def findOne (db : DB) (id : Nat) : Except ServiceError PostView :=
  match PostRepository.findById db id with
  | none => .error .NotFound
  | some p => .ok p

/-- Embeds `PostsService.findByAuthor` (the my-posts listing). -/
def findByAuthor (db : DB) (authorId : Nat) : List PostView :=
  PostRepository.findByAuthor db authorId

/-- Embeds `PostsService.update` (posts.service.ts lines 35-56): first
the existence check (NotFound), then the ownership check (Forbidden),
then the repository update; a vanished row after the update is a final
NotFound. -/
def update (db : DB) (id : Nat) (dto : UpdatePostDto) (userId : Nat) :
    Except ServiceError (DB × PostView) :=
  match PostRepository.findById db id with
  | none => .error .NotFound
  | some post =>
    if post.post.authorId ≠ userId then .error .Forbidden
    else
      match PostRepository.update db id dto with
      | (_, none) => .error .NotFound
      | (db2, some p) => .ok (db2, p)

/-- Embeds `PostsService.remove` (posts.service.ts lines 58-73): same
order of checks as update, then the repository delete. -/
def remove (db : DB) (id : Nat) (userId : Nat) :
    Except ServiceError DB :=
  match PostRepository.findById db id with
  | none => .error .NotFound
  | some post =>
    if post.post.authorId ≠ userId then .error .Forbidden
    else
      match PostRepository.delete db id with
      | (db2, deleted) => if deleted then .ok db2 else .error .NotFound

end PostsService

/-- Sample user with id 7 for concrete evaluations. -/
def sampleUser1 : User :=
  { id := 7, email := "a@x.com", passwordHash := "hash7",
    firstName := "Ada", lastName := "L", createdAt := 0, updatedAt := 0 }

/-- Sample user with id 9 for concrete evaluations. -/
def sampleUser2 : User :=
  { id := 9, email := "b@x.com", passwordHash := "hash9",
    firstName := "Bob", lastName := "M", createdAt := 0, updatedAt := 0 }

/-- Sample post row with id 1 owned by user 7. -/
def samplePost1 : PostRow :=
  { id := 1, title := "t1", content := "c1", published := true,
    authorId := 7, createdAt := 5, updatedAt := 5 }

/-- Sample post row with id 2 owned by user 9. -/
def samplePost2 : PostRow :=
  { id := 2, title := "t2", content := "c2", published := true,
    authorId := 9, createdAt := 3, updatedAt := 3 }

/-- Sample store with two users and two posts; next generated id is 3. -/
def sampleDB : DB :=
  { users := [sampleUser1, sampleUser2], posts := [samplePost1, samplePost2],
    nextPostId := 3 }

/-- An update dto with every field absent. -/
def emptyUpdateDto : UpdatePostDto :=
  { title := none, content := none, published := none }

/-- An update dto carrying only a title. -/
def titleOnlyDto : UpdatePostDto :=
  { title := some "new", content := none, published := none }

/-- A create dto with no published flag and no smuggled authorId. -/
def sampleCreateDto : CreatePostDto :=
  { title := "t3", content := "c3", published := none, authorId := none }

end Backend

namespace Frontend

/-- A user as held by the client (types/api.ts User, public fields). -/
structure FUser where
  id : Nat
  email : String
  firstName : String
  lastName : String
deriving DecidableEq, Repr

/-- A post as held by the client (types/api.ts Post, author omitted for
the reducer model which treats posts opaquely except for id). -/
structure FPost where
  id : Nat
  title : String
  content : String
  published : Bool
  authorId : Nat
deriving DecidableEq, Repr

/-- The five operation keys of the loading and error maps in
PostsContextState. -/
inductive OpKey where
  | posts
  | auth
  | createOp
  | updateOp
  | deleteOp
deriving DecidableEq, Repr

/-- A map from operation keys to values, as the loading and error
objects of PostsContextState. -/
structure OpFlags (α : Type) where
  posts : α
  auth : α
  createOp : α
  updateOp : α
  deleteOp : α
deriving DecidableEq, Repr

/-- Functional update of one key of an OpFlags map (the computed-key
spread in SET_LOADING / SET_ERROR). -/
def OpFlags.set {α : Type} (f : OpFlags α) (k : OpKey) (v : α) : OpFlags α :=
  match k with
  | .posts => { f with posts := v }
  | .auth => { f with auth := v }
  | .createOp => { f with createOp := v }
  | .updateOp => { f with updateOp := v }
  | .deleteOp => { f with deleteOp := v }

/-- Embeds PostsContextState (PostsContext.tsx lines 8-26). -/
structure PostsContextState where
  posts : List FPost
  user : Option FUser
  isAuthenticated : Bool
  loading : OpFlags Bool
  error : OpFlags (Option String)
deriving DecidableEq, Repr

/-- Embeds initialState (PostsContext.tsx lines 40-58). -/
def initialState : PostsContextState :=
  { posts := []
    user := none
    isAuthenticated := false
    loading := { posts := false, auth := false, createOp := false,
                 updateOp := false, deleteOp := false }
    error := { posts := none, auth := none, createOp := none,
               updateOp := none, deleteOp := none } }

/-- Embeds the PostsAction union (PostsContext.tsx lines 28-38). -/
inductive PostsAction where
  | SET_POSTS (payload : List FPost)
  | ADD_POST (payload : FPost)
  | UPDATE_POST (payload : FPost)
  | DELETE_POST (payload : Nat)
  | SET_USER (payload : Option FUser)
  | SET_LOADING (k : OpKey) (value : Bool)
  | SET_ERROR (k : OpKey) (value : Option String)
  | CLEAR_ERRORS
  | LOGOUT
deriving DecidableEq, Repr

/-- Embeds postsReducer (PostsContext.tsx lines 61-120): SET_POSTS
replaces the collection, UPDATE_POST maps matching ids to the payload,
DELETE_POST filters the id out, SET_USER sets isAuthenticated to
payload non-null, LOGOUT resets to initialState. -/
def postsReducer (state : PostsContextState) (action : PostsAction) :
    PostsContextState :=
  match action with
  | .SET_POSTS payload => { state with posts := payload }
  | .ADD_POST payload => { state with posts := payload :: state.posts }
  | .UPDATE_POST payload =>
    { state with
      posts := state.posts.map (fun post =>
        if post.id == payload.id then payload else post) }
  | .DELETE_POST payload =>
    { state with posts := state.posts.filter (fun post => !(post.id == payload)) }
  | .SET_USER payload =>
    { state with user := payload, isAuthenticated := payload.isSome }
  | .SET_LOADING k v => { state with loading := state.loading.set k v }
  | .SET_ERROR k v => { state with error := state.error.set k v }
  | .CLEAR_ERRORS =>
    { state with error := { posts := none, auth := none, createOp := none,
                            updateOp := none, deleteOp := none } }
  | .LOGOUT => initialState

/-- The two client-local storage entries, token and user JSON blob. -/
structure LocalStorage where
  token : Option String
  user : Option String
deriving DecidableEq, Repr

/-- Embeds the mount-time restore effect (PostsContext.tsx lines
160-174): when both entries are present, parse the user blob and
dispatch SET_USER on success; on a parse failure remove both entries;
when either entry is absent, do nothing. `parseUser` stands for
JSON.parse on the stored blob (none models a throw). -/
def restoreSession (parseUser : String → Option FUser) (st : LocalStorage)
    (s : PostsContextState) : LocalStorage × PostsContextState :=
  match st.token, st.user with
  | some _, some userData =>
    match parseUser userData with
    | some u => (st, postsReducer s (.SET_USER (some u)))
    | none => ({ token := none, user := none }, s)
  | _, _ => (st, s)

/-- Embeds the auth-transition effect (PostsContext.tsx lines 194-199)
over a render history. The effect depends on [isAuthenticated,
fetchPosts]; fetchPosts is a useCallback with an empty dependency list,
hence referentially stable, so the effect body runs on mount and
whenever isAuthenticated changed since the previous render; the body
calls fetchPosts only when isAuthenticated holds. The first argument is
the dependency value at the previous render (none at mount); the result
counts the fetchPosts calls made over the remaining renders. -/
def authEffectFetchCount : Option Bool → List Bool → Nat
  | _, [] => 0
  | none, b :: rest =>
    (if b then 1 else 0) + authEffectFetchCount (some b) rest
  | some prev, b :: rest =>
    (if b != prev then (if b then 1 else 0) else 0) +
      authEffectFetchCount (some b) rest

/-- Count of transitions from unauthenticated to authenticated in a
render history, given the state before the first render. -/
def risingEdges : Bool → List Bool → Nat
  | _, [] => 0
  | prev, b :: rest => (if b && !prev then 1 else 0) + risingEdges b rest

/-- The client-visible events of one posts refresh interleaved with a
logout (fetchPosts lines 177-192 and logout lines 250-254). -/
inductive ClientEvent where
  | fetchStart
  | fetchComplete (payload : List FPost)
  | logoutEvent
deriving DecidableEq, Repr

/-- Dispatch sequence of each event, exactly as the code issues it:
fetchStart dispatches SET_LOADING posts true then SET_ERROR posts null;
fetchComplete dispatches SET_POSTS unconditionally (the code has no
completion-time check of the session) and then the finally
SET_LOADING posts false; logoutEvent dispatches LOGOUT. -/
def stepClient (s : PostsContextState) : ClientEvent → PostsContextState
  | .fetchStart =>
    postsReducer (postsReducer s (.SET_LOADING .posts true)) (.SET_ERROR .posts none)
  | .fetchComplete payload =>
    postsReducer (postsReducer s (.SET_POSTS payload)) (.SET_LOADING .posts false)
  | .logoutEvent => postsReducer s .LOGOUT

/-- Run a sequence of client events from a state. -/
def runClient (s : PostsContextState) (evs : List ClientEvent) : PostsContextState :=
  evs.foldl stepClient s

/-- A sample client-side user. -/
def sampleFUser : FUser :=
  { id := 7, email := "a@x.com", firstName := "Ada", lastName := "L" }

/-- A sample client-side post owned by user 7. -/
def sampleFPost : FPost :=
  { id := 1, title := "t1", content := "c1", published := true, authorId := 7 }

/-- A second sample client-side post owned by user 9. -/
def sampleFPost2 : FPost :=
  { id := 2, title := "t2", content := "c2", published := true, authorId := 9 }

end Frontend

namespace Backend

/-- Generic helper: find? over a mapped list when the predicate is
invariant under the mapped function. -/
theorem find?_map_congr {α β : Type} (f : α → β) (q : β → Bool) (ql : α → Bool)
    (h : ∀ a, q (f a) = ql a) (l : List α) :
    (l.map f).find? q = (l.find? ql).map f := by
  rw [List.find?_map]
  have hq : (q ∘ f) = ql := funext h
  rw [hq]

/-- A partial update never changes the id column. -/
theorem applyUpdateDto_id (dto : UpdatePostDto) (r : PostRow) :
    (PostRepository.applyUpdateDto dto r).id = r.id := rfl

/-- Helper: searching the rewritten row list by id finds the rewritten
image of the row the original search finds. -/
theorem find?_update_map (l : List PostRow) (id : Nat) (dto : UpdatePostDto) :
    (l.map (fun r => if r.id == id then PostRepository.applyUpdateDto dto r else r)).find?
        (fun r => r.id == id) =
      (l.find? (fun r => r.id == id)).map
        (fun r => if r.id == id then PostRepository.applyUpdateDto dto r else r) := by
  apply find?_map_congr
  intro r
  by_cases h : (r.id == id) = true
  · simp [h, PostRepository.applyUpdateDto]
  · simp [h]

/-- Helper: when the row exists, the repository update re-fetches the row
with the dto applied, attached under the post-update store. -/
theorem update_refreshes (db : DB) (id : Nat) (dto : UpdatePostDto) (r : PostRow)
    (hr : db.posts.find? (fun x => x.id == id) = some r) :
    (PostRepository.update db id dto).2 =
      some (attachAuthor (PostRepository.update db id dto).1
        (PostRepository.applyUpdateDto dto r)) := by
  have hq : (r.id == id) = true := List.find?_some (p := fun x : PostRow => x.id == id) hr
  unfold PostRepository.update PostRepository.findById
  simp only [find?_update_map, hr, Option.map_some']
  simp [hq]

end Backend

namespace Backend

/-- Inserting a row is a permutation of consing it. -/
theorem insert_perm (x : PostRow) (l : List PostRow) :
    (insertDescByCreatedAt x l).Perm (x :: l) := by
  induction l with
  | nil => exact List.Perm.refl _
  | cons y ys ih =>
    simp only [insertDescByCreatedAt]
    by_cases hxy : y.createdAt < x.createdAt
    · rw [if_pos hxy]
    · rw [if_neg hxy]
      exact List.Perm.trans (List.Perm.cons y ih) (List.Perm.swap x y ys)

/-- The descending sort permutes its input. -/
theorem orderBy_perm (l : List PostRow) : (orderByCreatedAtDesc l).Perm l := by
  induction l with
  | nil => exact List.Perm.refl _
  | cons x xs ih =>
    exact List.Perm.trans (insert_perm x (orderByCreatedAtDesc xs)) (List.Perm.cons x ih)

/-- Inserting into a list sorted by createdAt descending keeps it sorted. -/
theorem insert_sorted (x : PostRow) (l : List PostRow)
    (h : l.Pairwise (fun a b => b.createdAt ≤ a.createdAt)) :
    (insertDescByCreatedAt x l).Pairwise (fun a b => b.createdAt ≤ a.createdAt) := by
  induction l with
  | nil => simp [insertDescByCreatedAt]
  | cons y ys ih =>
    rw [List.pairwise_cons] at h
    obtain ⟨hy, hys⟩ := h
    simp only [insertDescByCreatedAt]
    by_cases hxy : y.createdAt < x.createdAt
    · rw [if_pos hxy, List.pairwise_cons]
      refine ⟨?_, List.Pairwise.cons hy hys⟩
      intro z hz
      rcases List.mem_cons.mp hz with h1 | h1
      · rw [h1]; exact le_of_lt hxy
      · exact le_trans (hy z h1) (le_of_lt hxy)
    · rw [if_neg hxy, List.pairwise_cons]
      refine ⟨?_, ih hys⟩
      intro z hz
      have hz2 := (List.Perm.mem_iff (insert_perm x ys)).mp hz
      rcases List.mem_cons.mp hz2 with h1 | h1
      · rw [h1]; exact not_lt.mp hxy
      · exact hy z h1

/-- The descending sort is sorted by createdAt descending. -/
theorem orderBy_sorted (l : List PostRow) :
    (orderByCreatedAtDesc l).Pairwise (fun a b => b.createdAt ≤ a.createdAt) := by
  induction l with
  | nil => exact List.Pairwise.nil
  | cons x xs ih => exact insert_sorted x (orderByCreatedAtDesc xs) ih

/-- Inserting above every element is a cons. -/
theorem insert_eq_cons_of_lt (x : PostRow) (l : List PostRow)
    (h : ∀ z ∈ l, z.createdAt < x.createdAt) :
    insertDescByCreatedAt x l = x :: l := by
  cases l with
  | nil => rfl
  | cons z zs =>
    simp only [insertDescByCreatedAt]
    rw [if_pos (h z (List.mem_cons_self z zs))]

/-- Filtering commutes with stable insertion into a sorted list. -/
theorem filter_insertDesc (p : PostRow → Bool) (x : PostRow) (l : List PostRow)
    (hs : l.Pairwise (fun a b => b.createdAt ≤ a.createdAt)) :
    (insertDescByCreatedAt x l).filter p =
      if p x then insertDescByCreatedAt x (l.filter p) else l.filter p := by
  induction l with
  | nil =>
    simp only [insertDescByCreatedAt, List.filter_nil]
    by_cases hpx : p x = true
    · rw [if_pos hpx]
      simp [List.filter, hpx, insertDescByCreatedAt]
    · rw [if_neg hpx]
      simp [List.filter, hpx]
  | cons y ys ih =>
    rw [List.pairwise_cons] at hs
    obtain ⟨hy, hys⟩ := hs
    simp only [insertDescByCreatedAt]
    by_cases hxy : y.createdAt < x.createdAt
    · rw [if_pos hxy]
      by_cases hpx : p x = true
      · rw [List.filter_cons_of_pos hpx, if_pos hpx]
        have hall : ∀ z ∈ (y :: ys).filter p, z.createdAt < x.createdAt := by
          intro z hz
          have hz2 := List.mem_of_mem_filter hz
          rcases List.mem_cons.mp hz2 with h1 | h1
          · rw [h1]; exact hxy
          · exact lt_of_le_of_lt (hy z h1) hxy
        rw [insert_eq_cons_of_lt x _ hall]
      · rw [List.filter_cons_of_neg hpx, if_neg hpx]
    · rw [if_neg hxy]
      by_cases hpy : p y = true
      · rw [List.filter_cons_of_pos hpy, List.filter_cons_of_pos hpy, ih hys]
        by_cases hpx : p x = true
        · rw [if_pos hpx, if_pos hpx]
          simp only [insertDescByCreatedAt]
          rw [if_neg hxy]
        · rw [if_neg hpx, if_neg hpx]
      · rw [List.filter_cons_of_neg hpy, List.filter_cons_of_neg hpy, ih hys]

/-- Filtering commutes with the descending sort. -/
theorem filter_orderBy (p : PostRow → Bool) (l : List PostRow) :
    (orderByCreatedAtDesc l).filter p = orderByCreatedAtDesc (l.filter p) := by
  induction l with
  | nil => rfl
  | cons x xs ih =>
    show (insertDescByCreatedAt x (orderByCreatedAtDesc xs)).filter p =
      orderByCreatedAtDesc ((x :: xs).filter p)
    rw [filter_insertDesc p x _ (orderBy_sorted xs)]
    by_cases hpx : p x = true
    · rw [if_pos hpx, ih, List.filter_cons_of_pos hpx]
      rfl
    · rw [if_neg hpx, ih, List.filter_cons_of_neg hpx]

/-- C1: update and remove first check existence (NotFound), then
ownership (Forbidden), in that order; when the caller owns an existing
post, both proceed: update returns the refreshed post under the updated
store, remove returns the store without the row. -/
theorem C1_update_remove_check_order (db : DB) (id : Nat) (dto : UpdatePostDto)
    (userId : Nat) :
    (PostRepository.findById db id = none →
      PostsService.update db id dto userId = .error .NotFound ∧
      PostsService.remove db id userId = .error .NotFound) ∧
    (∀ p, PostRepository.findById db id = some p → p.post.authorId ≠ userId →
      PostsService.update db id dto userId = .error .Forbidden ∧
      PostsService.remove db id userId = .error .Forbidden) ∧
    (∀ p, PostRepository.findById db id = some p → p.post.authorId = userId →
      PostsService.update db id dto userId =
        .ok ((PostRepository.update db id dto).1,
             attachAuthor (PostRepository.update db id dto).1
               (PostRepository.applyUpdateDto dto p.post)) ∧
      PostsService.remove db id userId = .ok (PostRepository.delete db id).1) := by
  refine ⟨?_, ?_, ?_⟩
  · intro h
    constructor
    · simp [PostsService.update, h]
    · simp [PostsService.remove, h]
  · intro p hp hne
    constructor
    · simp [PostsService.update, hp, hne]
    · simp [PostsService.remove, hp, hne]
  · intro p hp heq
    obtain ⟨r, hr, hattach⟩ :
        ∃ r, db.posts.find? (fun x => x.id == id) = some r ∧ attachAuthor db r = p := by
      simpa [PostRepository.findById, Option.map_eq_some'] using hp
    have hpost : p.post = r := by rw [← hattach]; rfl
    have heq' : r.authorId = userId := by rw [← hpost]; exact heq
    constructor
    · have h2 := update_refreshes db id dto r hr
      rcases hu : PostRepository.update db id dto with ⟨db2, res⟩
      rw [hu] at h2
      simp only [PostsService.update, hp, hu, hpost]
      simp only at h2
      rw [h2]
      simp [heq']
    · have hany : db.posts.any (fun x => x.id == id) = true :=
        List.any_eq_true.mpr ⟨r, List.mem_of_find?_eq_some hr,
          List.find?_some (p := fun x : PostRow => x.id == id) hr⟩
      simp [PostsService.remove, hp, heq, PostRepository.delete, hany]

/-- Witness for C1 on the sample store: id 5 is absent (NotFound), post 1
is not owned by user 9 (Forbidden), and owner 7 updates post 1
successfully. -/
theorem C1_update_remove_check_order_witness :
    PostsService.update sampleDB 5 emptyUpdateDto 7 = .error .NotFound ∧
    PostsService.remove sampleDB 1 9 = .error .Forbidden ∧
    (PostsService.update sampleDB 1 titleOnlyDto 7).isOk = true := by
  refine ⟨((C1_update_remove_check_order sampleDB 5 emptyUpdateDto 7).1 rfl).1, ?_, ?_⟩
  · exact ((C1_update_remove_check_order sampleDB 1 emptyUpdateDto 9).2.1
      (attachAuthor sampleDB samplePost1) rfl (by decide)).2
  · rw [((C1_update_remove_check_order sampleDB 1 titleOnlyDto 7).2.2
      (attachAuthor sampleDB samplePost1) rfl rfl).1]
    rfl

/-- C2: the created post always carries the caller id as its authorId,
and the result of create is entirely independent of any authorId the
input fields may carry (the spread override drops it). -/
theorem C2_create_ignores_input_authorId (db : DB) (dto : CreatePostDto)
    (callerId : Nat) (now : Int) :
    (PostsService.create db dto callerId now).2.post.authorId = callerId ∧
    ∀ a : Option Nat,
      PostsService.create db { dto with authorId := a } callerId now =
        PostsService.create db dto callerId now := by
  exact ⟨rfl, fun a => rfl⟩

/-- C4: a partial update rewrites exactly the rows with the target id and
only the fields present in the dto; with a title-only dto the stored
collection changes only in that title, and the refreshed post returned
equals the old post with only the title replaced (content, published,
authorId, createdAt and the attached author untouched). -/
theorem C4_update_frame (db : DB) (id : Nat) (t : String) :
    ((PostRepository.update db id
        { title := some t, content := none, published := none }).1.posts =
      db.posts.map (fun r => if r.id == id then { r with title := t } else r)) ∧
    (∀ dto : UpdatePostDto, ∀ r : PostRow,
      (dto.title = none → (PostRepository.applyUpdateDto dto r).title = r.title) ∧
      (dto.content = none → (PostRepository.applyUpdateDto dto r).content = r.content) ∧
      (dto.published = none →
        (PostRepository.applyUpdateDto dto r).published = r.published) ∧
      (PostRepository.applyUpdateDto dto r).id = r.id ∧
      (PostRepository.applyUpdateDto dto r).authorId = r.authorId ∧
      (PostRepository.applyUpdateDto dto r).createdAt = r.createdAt) ∧
    (∀ p, PostRepository.findById db id = some p →
      (PostRepository.update db id
          { title := some t, content := none, published := none }).2 =
        some { p with post := { p.post with title := t } }) := by
  refine ⟨rfl, ?_, ?_⟩
  · intro dto r
    refine ⟨?_, ?_, ?_, rfl, rfl, rfl⟩
    · intro h; simp [PostRepository.applyUpdateDto, h]
    · intro h; simp [PostRepository.applyUpdateDto, h]
    · intro h; simp [PostRepository.applyUpdateDto, h]
  · intro p hp
    obtain ⟨r, hr, hattach⟩ :
        ∃ r, db.posts.find? (fun x => x.id == id) = some r ∧ attachAuthor db r = p := by
      simpa [PostRepository.findById, Option.map_eq_some'] using hp
    subst hattach
    rw [update_refreshes db id _ r hr]
    rfl

/-- Witness for C4 on the sample store: updating post 1 with only a new
title leaves every other field of the stored view unchanged. -/
theorem C4_update_frame_witness :
    (PostRepository.update sampleDB 1 titleOnlyDto).2 =
      some { attachAuthor sampleDB samplePost1 with
             post := { samplePost1 with title := "new" } } := by
  exact (C4_update_frame sampleDB 1 "new").2.2 (attachAuthor sampleDB samplePost1) rfl

/-- C3: listAll returns exactly the stored posts (as a permutation of
the attached rows) ordered by createdAt descending, and listMine is the
subsequence of listAll with the given authorId, in the same order. -/
theorem C3_listMine_is_filter_of_listAll (db : DB) (u : Nat) :
    (PostsService.findAll db).Perm (db.posts.map (attachAuthor db)) ∧
    (PostsService.findAll db).Pairwise
      (fun a b => b.post.createdAt ≤ a.post.createdAt) ∧
    PostsService.findByAuthor db u =
      (PostsService.findAll db).filter (fun v => v.post.authorId == u) := by
  refine ⟨?_, ?_, ?_⟩
  · exact List.Perm.map _ (orderBy_perm db.posts)
  · rw [PostsService.findAll, PostRepository.findAll, List.pairwise_map]
    exact orderBy_sorted db.posts
  · rw [PostsService.findAll, PostsService.findByAuthor, PostRepository.findAll,
      PostRepository.findByAuthor, List.filter_map]
    have hpred : ((fun v : PostView => v.post.authorId == u) ∘ (attachAuthor db)) =
        (fun r : PostRow => r.authorId == u) := rfl
    rw [hpred, filter_orderBy]

/-- C5: when all stored ids are below the id generator, the post
returned by create is found again unchanged by getOne on its id (create
already returns the stored row with the attached author). -/
theorem C5_create_getOne_roundtrip (db : DB) (dto : CreatePostDto)
    (callerId : Nat) (now : Int)
    (hfresh : ∀ r ∈ db.posts, r.id < db.nextPostId) :
    PostsService.findOne (PostsService.create db dto callerId now).1
        (PostsService.create db dto callerId now).2.post.id =
      .ok (PostsService.create db dto callerId now).2 := by
  have hnone : db.posts.find? (fun r => r.id == db.nextPostId) = none := by
    rw [List.find?_eq_none]
    intro x hx
    simp [Nat.ne_of_lt (hfresh x hx)]
  rw [show (PostsService.create db dto callerId now).2.post.id = db.nextPostId from rfl]
  simp [PostsService.create, PostRepository.create, PostsService.findOne,
    PostRepository.findById, List.find?_append, hnone, List.find?]

/-- Witness for C5 on the sample store: the generator value 3 is above
both stored ids. -/
theorem C5_create_getOne_roundtrip_witness :
    PostsService.findOne (PostsService.create sampleDB sampleCreateDto 7 10).1
        (PostsService.create sampleDB sampleCreateDto 7 10).2.post.id =
      .ok (PostsService.create sampleDB sampleCreateDto 7 10).2 := by
  exact C5_create_getOne_roundtrip sampleDB sampleCreateDto 7 10 (by decide)

/-- Helper: the attached author is unaffected by rewriting every stored
passwordHash. -/
theorem attachAuthor_scrub (db : DB) (hash : String) (r : PostRow) :
    attachAuthor { db with users := db.users.map (fun u => { u with passwordHash := hash }) } r =
      attachAuthor db r := by
  unfold attachAuthor
  have hfind :
      (db.users.map (fun u => { u with passwordHash := hash })).find?
          (fun u => u.id == r.authorId) =
        (db.users.find? (fun u => u.id == r.authorId)).map
          (fun u => { u with passwordHash := hash }) :=
    find?_map_congr _ _ _ (fun u => rfl) db.users
  simp only [hfind, Option.map_map]
  rfl

/-- C6: all three read paths are invariant under rewriting every stored
passwordHash (so no output can carry a passwordHash), and every attached
author in any of the three read paths consists of the public-field
projection of a stored user whose id is the post's authorId. -/
theorem C6_author_select_no_passwordHash (db : DB) (a : Nat) (i : Nat) (hash : String) :
    (PostRepository.findAll
        { db with users := db.users.map (fun u => { u with passwordHash := hash }) } =
          PostRepository.findAll db ∧
      PostRepository.findByAuthor
        { db with users := db.users.map (fun u => { u with passwordHash := hash }) } a =
          PostRepository.findByAuthor db a ∧
      PostRepository.findById
        { db with users := db.users.map (fun u => { u with passwordHash := hash }) } i =
          PostRepository.findById db i) ∧
    (∀ v, (v ∈ PostRepository.findAll db ∨ v ∈ PostRepository.findByAuthor db a ∨
        PostRepository.findById db i = some v) →
      ∀ av, v.author = some av →
        ∃ u ∈ db.users, u.id = v.post.authorId ∧ av = selectAuthor u) := by
  constructor
  · have hmap : ∀ l : List PostRow,
        l.map (attachAuthor
          { db with users := db.users.map (fun u => { u with passwordHash := hash }) }) =
          l.map (attachAuthor db) := by
      intro l
      apply List.map_congr_left
      intro r _
      exact attachAuthor_scrub db hash r
    refine ⟨hmap _, hmap _, ?_⟩
    unfold PostRepository.findById
    cases hfind : db.posts.find? (fun r => r.id == i) with
    | none => simp [hfind]
    | some r => simp [hfind, attachAuthor_scrub db hash r]
  · intro v hv av hav
    have hrow : ∃ r ∈ db.posts, attachAuthor db r = v := by
      rcases hv with hv | hv | hv
      · obtain ⟨r, hr, hrv⟩ := List.mem_map.mp hv
        exact ⟨r, (List.Perm.mem_iff (orderBy_perm db.posts)).mp hr, hrv⟩
      · obtain ⟨r, hr, hrv⟩ := List.mem_map.mp hv
        exact ⟨r, List.mem_of_mem_filter
          ((List.Perm.mem_iff (orderBy_perm _)).mp hr), hrv⟩
      · obtain ⟨r, hr, hrv⟩ := Option.map_eq_some'.mp hv
        exact ⟨r, List.mem_of_find?_eq_some hr, hrv⟩
    obtain ⟨r, hrmem, hrv⟩ := hrow
    subst hrv
    obtain ⟨u, hu, husel⟩ := Option.map_eq_some'.mp hav
    refine ⟨u, List.mem_of_find?_eq_some hu, ?_, husel.symm⟩
    have h1 := List.find?_some (p := fun x : User => x.id == r.authorId) hu
    have h2 : (u.id == r.authorId) = true := h1
    show u.id = r.authorId
    exact eq_of_beq h2

/-- Witness for C6: the first post of the sample listing carries the
public projection of user 7. -/
theorem C6_author_select_no_passwordHash_witness :
    ∃ u ∈ sampleDB.users,
      u.id = (attachAuthor sampleDB samplePost1).post.authorId ∧
        selectAuthor sampleUser1 = selectAuthor u := by
  exact (C6_author_select_no_passwordHash sampleDB 9 1 "x").2
    (attachAuthor sampleDB samplePost1) (Or.inl (by decide))
    (selectAuthor sampleUser1) rfl

end Backend

namespace Frontend

/-- C7 fails as stated: with a stored token but no stored user record,
the restore effect leaves the session logged out but does not purge the
dangling token from storage — the purge only happens on a parse
failure with both entries present. -/
theorem C7_restore_purge_counterexample :
    (restoreSession (fun _ => none)
        { token := some "t", user := none } initialState).2.isAuthenticated = false ∧
    (restoreSession (fun _ => none)
        { token := some "t", user := none } initialState).1.token = some "t" := by
  exact ⟨rfl, rfl⟩

/-- C7 amended: restore authenticates exactly when both entries are
present and the record parses, with the parsed user installed; on a
parse failure with both entries present, both entries are removed and
the session stays at the initial state; when either entry is missing,
the session stays at the initial state and storage is left unchanged
(not purged). -/
theorem C7_restore_behavior (parseUser : String → Option FUser) (st : LocalStorage) :
    (∀ t d u, st.token = some t → st.user = some d → parseUser d = some u →
      restoreSession parseUser st initialState =
        (st, { initialState with user := some u, isAuthenticated := true })) ∧
    (∀ t d, st.token = some t → st.user = some d → parseUser d = none →
      restoreSession parseUser st initialState =
        ({ token := none, user := none }, initialState)) ∧
    ((st.token = none ∨ st.user = none) →
      restoreSession parseUser st initialState = (st, initialState)) := by
  refine ⟨?_, ?_, ?_⟩
  · intro t d u ht hd hu
    simp [restoreSession, ht, hd, hu, postsReducer]
  · intro t d ht hd hu
    simp [restoreSession, ht, hd, hu]
  · intro h
    rcases h with h | h
    · simp [restoreSession, h]
    · cases htok : st.token with
      | none => simp [restoreSession, htok, h]
      | some t => simp [restoreSession, htok, h]

/-- Witness for C7 amended, covering all three branches: a valid pair
restores the user, a corrupt record purges both entries, a missing
token leaves the dangling record in place. -/
theorem C7_restore_behavior_witness :
    restoreSession (fun d => if d == "good" then some sampleFUser else none)
        { token := some "t", user := some "good" } initialState =
      ({ token := some "t", user := some "good" },
       { initialState with user := some sampleFUser, isAuthenticated := true }) ∧
    restoreSession (fun d => if d == "good" then some sampleFUser else none)
        { token := some "t", user := some "bad" } initialState =
      ({ token := none, user := none }, initialState) ∧
    restoreSession (fun d => if d == "good" then some sampleFUser else none)
        { token := none, user := some "good" } initialState =
      ({ token := none, user := some "good" }, initialState) := by
  refine ⟨?_, ?_, ?_⟩
  · exact (C7_restore_behavior _ _).1 "t" "good" sampleFUser rfl rfl (by decide)
  · exact (C7_restore_behavior _ _).2.1 "t" "bad" rfl rfl (by decide)
  · exact (C7_restore_behavior _ _).2.2 (Or.inl rfl)

/-- Helper: with a known previous dependency value, the effect fires
exactly on changes, so the fetch count is the rising-edge count. -/
theorem authEffectFetchCount_some (prev : Bool) (l : List Bool) :
    authEffectFetchCount (some prev) l = risingEdges prev l := by
  induction l generalizing prev with
  | nil => rfl
  | cons b rest ih =>
    simp only [authEffectFetchCount, risingEdges, ih]
    congr 1
    cases b <;> cases prev <;> rfl

/-- C8: over any render history the auth-transition effect calls
fetchPosts exactly once per transition from unauthenticated to
authenticated (the session starts unauthenticated), and a run of
re-renders that stays authenticated triggers no call at all. -/
theorem C8_auth_transition_fetches_once (renders : List Bool) (n : Nat) :
    authEffectFetchCount none renders = risingEdges false renders ∧
    authEffectFetchCount (some true) (List.replicate n true) = 0 := by
  constructor
  · cases renders with
    | nil => rfl
    | cons b rest =>
      simp only [authEffectFetchCount, risingEdges, authEffectFetchCount_some]
      congr 1
      cases b <;> rfl
  · induction n with
    | zero => rfl
    | succ m ih =>
      simp [List.replicate, authEffectFetchCount, ih]

/-- C9 fails as stated: a posts fetch that started before a logout and
completes after it is not ignored — its SET_POSTS dispatch overwrites
the (already cleared) collection with the stale response, so the
session re-acquires posts from a response issued before the logout. -/
theorem C9_fetch_after_logout_counterexample :
    (runClient { initialState with user := some sampleFUser, isAuthenticated := true }
        [.fetchStart, .logoutEvent, .fetchComplete [sampleFPost]]).posts =
      [sampleFPost] ∧
    (runClient { initialState with user := some sampleFUser, isAuthenticated := true }
        [.fetchStart, .logoutEvent, .fetchComplete [sampleFPost]]).isAuthenticated =
      false := by
  exact ⟨rfl, rfl⟩

/-- C9 amended: a fetch completion arriving after a logout is applied,
not ignored: the post collection becomes the stale response; only the
user is safe, since a posts completion dispatches no SET_USER, so the
session stays unauthenticated with no user, and loading and error stay
cleared. -/
theorem C9_fetch_completion_after_logout (s : PostsContextState)
    (payload : List FPost) :
    (stepClient (stepClient s .logoutEvent) (.fetchComplete payload)).posts = payload ∧
    (stepClient (stepClient s .logoutEvent) (.fetchComplete payload)).user = none ∧
    (stepClient (stepClient s .logoutEvent)
        (.fetchComplete payload)).isAuthenticated = false ∧
    (stepClient (stepClient s .logoutEvent)
        (.fetchComplete payload)).loading = initialState.loading ∧
    (stepClient (stepClient s .logoutEvent)
        (.fetchComplete payload)).error = initialState.error := by
  exact ⟨rfl, rfl, rfl, rfl, rfl⟩

/-- C10: UPDATE_POST touches only the posts field; it keeps the length,
maps every position with the payload id to the payload unchanged
elsewhere (position preserved), and when no id matches it leaves the
collection exactly as it was — no insertion. -/
theorem C10_update_post_merge (s : PostsContextState) (p : FPost) :
    ((postsReducer s (.UPDATE_POST p)).user = s.user ∧
     (postsReducer s (.UPDATE_POST p)).isAuthenticated = s.isAuthenticated ∧
     (postsReducer s (.UPDATE_POST p)).loading = s.loading ∧
     (postsReducer s (.UPDATE_POST p)).error = s.error) ∧
    (postsReducer s (.UPDATE_POST p)).posts.length = s.posts.length ∧
    (∀ i (h1 : i < s.posts.length)
        (h2 : i < (postsReducer s (.UPDATE_POST p)).posts.length),
      (postsReducer s (.UPDATE_POST p)).posts.get ⟨i, h2⟩ =
        if (s.posts.get ⟨i, h1⟩).id = p.id then p else s.posts.get ⟨i, h1⟩) ∧
    ((∀ q ∈ s.posts, q.id ≠ p.id) →
      (postsReducer s (.UPDATE_POST p)).posts = s.posts) := by
  refine ⟨⟨rfl, rfl, rfl, rfl⟩, ?_, ?_, ?_⟩
  · simp [postsReducer]
  · intro i h1 h2
    have hmap : (postsReducer s (.UPDATE_POST p)).posts.get ⟨i, h2⟩ =
        (fun post => if post.id == p.id then p else post) (s.posts.get ⟨i, h1⟩) := by
      simp only [postsReducer] at h2 ⊢
      exact List.get_map _
    rw [hmap]
    simp only [beq_iff_eq]
  · intro h
    simp only [postsReducer]
    have hcongr : ∀ q ∈ s.posts,
        (fun post => if post.id == p.id then p else post) q = id q := by
      intro q hq
      simp [h q hq]
    rw [List.map_congr_left hcongr, List.map_id]

/-- Witness for C10: the matching position is replaced by the payload,
and with no matching id the collection is untouched. -/
theorem C10_update_post_merge_witness :
    (postsReducer { initialState with posts := [sampleFPost, sampleFPost2] }
        (.UPDATE_POST { sampleFPost with title := "z" })).posts.get
        ⟨0, by decide⟩ = { sampleFPost with title := "z" } ∧
    (postsReducer { initialState with posts := [sampleFPost2] }
        (.UPDATE_POST sampleFPost)).posts = [sampleFPost2] := by
  constructor
  · have h := (C10_update_post_merge
      { initialState with posts := [sampleFPost, sampleFPost2] }
      { sampleFPost with title := "z" }).2.2.1 0 (by decide) (by decide)
    simpa using h
  · exact (C10_update_post_merge
      { initialState with posts := [sampleFPost2] } sampleFPost).2.2.2 (by decide)

end Frontend

end KupaAsc
